import Mathlib

/-!
Shallow embedding of the legal-ingest document pipeline
(`src/services/pipelineService.ts`, `src/App.tsx`, `src/types.ts`).

JS strings carrying document text are modelled as `List Char`; identifiers,
names and messages are `String`.  The asynchronous collaborators
(the text extractor, the per-chunk embedder and the Qdrant store client)
are modelled as oracles returning `Except String` results, matching the
`try`/`catch` control flow of `processFile`: any collaborator error
propagates to the single top-level catch.  The `onUpdate` callback is
modelled by returning the ordered list of published job snapshots, and the
store client's network operations by returning the ordered list of issued
store calls.
-/

/-- `ProcessingStatus` from `src/types.ts`. -/
inductive ProcessingStatus where
  | pending
  | inProgress
  | completed
  | failed
deriving DecidableEq, Repr

/-- `ProcessingStep` from `src/types.ts`: one named pipeline stage. -/
structure ProcessingStep where
  name : String
  status : ProcessingStatus
  details : Option String
deriving DecidableEq, Repr

/-- The `metadata` object built per chunk in `processFile` (lines 68-74). -/
structure ChunkMetadata where
  file_name : String
  file_path : String
  file_type : String
  chunk_size : Nat
  chunk_overlap : Nat
deriving DecidableEq, Repr

/-- `DocumentChunk` from `src/types.ts`.  `embedding` is the optional
vector (`number[]` in the source, abstracted to `List Int`). -/
structure DocumentChunk where
  id : String
  fileId : String
  chunkIndex : Nat
  text : List Char
  metadata : ChunkMetadata
  embeddingStatus : ProcessingStatus
  storageStatus : ProcessingStatus
  embedding : Option (List Int)
deriving DecidableEq, Repr

/-- The browser `File` object fields that `processFile` reads. -/
structure FileRef where
  name : String
  webkitRelativePath : String
  type : String
deriving DecidableEq, Repr

/-- `ProcessedFile` from `src/types.ts`: one file job under processing. -/
structure ProcessedFile where
  id : String
  file : FileRef
  status : ProcessingStatus
  steps : List ProcessingStep
  chunks : List DocumentChunk
  extractedText : Option (List Char)
  cleanedText : Option (List Char)
  error : Option String
deriving DecidableEq, Repr

/-- `CHUNK_SIZE` constant (`pipelineService.ts` line 6). -/
def CHUNK_SIZE : Nat := 1000

/-- `CHUNK_OVERLAP` constant (`pipelineService.ts` line 7). -/
def CHUNK_OVERLAP : Nat := 200

/-- `VECTOR_DIMENSION` constant (`pipelineService.ts` line 8). -/
def VECTOR_DIMENSION : Nat := 768

/-- `BATCH_SIZE` constant (`pipelineService.ts` line 145). -/
def BATCH_SIZE : Nat := 100

/-- The five stage records created by `handleFilesAdded` (`src/App.tsx`
lines 27-33), all `pending`. -/
def initialSteps : List ProcessingStep :=
  [ { name := "Extract Text", status := .pending, details := none },
    { name := "Clean Text", status := .pending, details := none },
    { name := "Chunk Text", status := .pending, details := none },
    { name := "Generate Embeddings", status := .pending, details := none },
    { name := "Store in Qdrant", status := .pending, details := none } ]

/-- The fixed stage names, in pipeline order, as used by `App.tsx` and by
every `updateStepStatus` call in `processFile`. -/
def stageNames : List String :=
  ["Extract Text", "Clean Text", "Chunk Text", "Generate Embeddings", "Store in Qdrant"]

/-- `updateStepStatus` (`pipelineService.ts` lines 13-23): returns a new
job whose steps matching `stepName` carry the new status and details. -/
def updateStepStatus (file : ProcessedFile) (stepName : String)
    (status : ProcessingStatus) (details : Option String) : ProcessedFile :=
  { file with steps := file.steps.map fun step =>
      if step.name = stepName then { step with status := status, details := details }
      else step }

/-- JS whitespace test for the characters relevant to `\s` in the
`extractedText.replace` regular expression (`pipelineService.ts` line 48). -/
def isWs (c : Char) : Bool :=
  c = ' ' || c = '\t' || c = '\n' || c = '\r' || c = '\x0b' || c = '\x0c'

/-- `extractedText.replace` of the regex for runs of whitespace by a single
space (`pipelineService.ts` line 48): each maximal run of whitespace
characters becomes one `' '`. -/
def collapseWs : List Char → List Char
  | [] => []
  | [c] => if isWs c then [' '] else [c]
  | c1 :: c2 :: rest =>
    if isWs c1 && isWs c2 then collapseWs (c2 :: rest)
    else (if isWs c1 then ' ' else c1) :: collapseWs (c2 :: rest)

/-- JS `String.prototype.trim`: drop leading and trailing whitespace. -/
def trimWs (l : List Char) : List Char :=
  ((l.dropWhile isWs).reverse.dropWhile isWs).reverse

/-- The Clean Text stage body (`pipelineService.ts` line 48):
`extractedText.replace` of whitespace runs, then `trim`. -/
def cleanText (t : List Char) : List Char :=
  trimWs (collapseWs t)

/-- Decimal digit list of a natural number, least significant digit last:
the JS stringification of `chunkIndex` in the template literal
`(id)-chunk-(chunkIndex)` (`pipelineService.ts` line 64). -/
def natDigits (n : Nat) : List Char :=
  if n < 10 then [Nat.digitChar n]
  else natDigits (n / 10) ++ [Nat.digitChar (n % 10)]
termination_by n
decreasing_by
  exact Nat.div_lt_self (by omega) (by omega)

/-- Decimal string of a natural number. -/
def natRepr (n : Nat) : String :=
  (natDigits n).asString

/-- One chunk record as pushed by the Chunk Text loop
(`pipelineService.ts` lines 63-77), at character offset `i` with zero-based
index `idx`. -/
def mkChunk (fid : String) (meta : ChunkMetadata) (txt : List Char)
    (i idx : Nat) : DocumentChunk :=
  { id := fid ++ "-chunk-" ++ natRepr idx
    fileId := fid
    chunkIndex := idx + 1
    text := (txt.drop i).take CHUNK_SIZE
    metadata := meta
    embeddingStatus := .pending
    storageStatus := .pending
    embedding := none }

/-- The Chunk Text `while` loop (`pipelineService.ts` lines 57-80): emit a
window of `CHUNK_SIZE` characters at offset `i` (clipped to the text
length, as `substring` does), then advance by `CHUNK_SIZE - CHUNK_OVERLAP`
while `i <` the text length. -/
def chunkGo (fid : String) (meta : ChunkMetadata) (txt : List Char)
    (i idx : Nat) : List DocumentChunk :=
  if i < txt.length then
    mkChunk fid meta txt i idx ::
      chunkGo fid meta txt (i + (CHUNK_SIZE - CHUNK_OVERLAP)) (idx + 1)
  else []
termination_by txt.length - i
decreasing_by
  simp only [CHUNK_SIZE, CHUNK_OVERLAP]
  omega

/-- The whole Chunk Text stage: the loop started at offset 0, index 0. -/
def chunkText (fid : String) (meta : ChunkMetadata) (txt : List Char) :
    List DocumentChunk :=
  chunkGo fid meta txt 0 0

/-- The chunk metadata object built inside the chunk loop from the current
file state (`pipelineService.ts` lines 68-74); `webkitRelativePath` is
falsy (empty) or used as the path. -/
def metaOf (f : ProcessedFile) : ChunkMetadata :=
  { file_name := f.file.name
    file_path := if f.file.webkitRelativePath = "" then f.file.name
      else f.file.webkitRelativePath
    file_type := f.file.type
    chunk_size := CHUNK_SIZE
    chunk_overlap := CHUNK_OVERLAP }

/-- Flattened upsert payload: the chunk text plus the spread chunk
metadata fields (`pipelineService.ts` lines 137-140). -/
structure PointPayload where
  text : List Char
  file_name : String
  file_path : String
  file_type : String
  chunk_size : Nat
  chunk_overlap : Nat
deriving DecidableEq, Repr

/-- One Qdrant upsert point (`pipelineService.ts` lines 134-141). -/
structure UpsertPoint where
  id : String
  vector : List Int
  payload : PointPayload
deriving DecidableEq, Repr

/-- The store-client operations `processFile` can issue
(`pipelineService.ts` lines 115, 121, 148). -/
inductive StoreCall where
  | getCollections
  | createCollection (name : String) (size : Nat) (distance : String)
  | upsert (collection : String) (wait : Bool) (points : List UpsertPoint)
deriving DecidableEq, Repr

/-- Results of the awaited external collaborator calls inside one
`processFile` invocation: the extractor (`generateLegalText`), the
per-chunk embedder (index = chunk position), and the store client
(per-batch upsert result, indexed by batch number).  An `error` value
models the call throwing with that message. -/
structure Oracles where
  extractResult : Except String (List Char)
  embedResult : Nat → Except String (List Int)
  getCollectionsResult : Except String (List String)
  createCollectionResult : Except String Unit
  upsertResult : Nat → Except String Unit

/-- The payload of a chunk's upsert point. -/
def payloadOf (c : DocumentChunk) : PointPayload :=
  { text := c.text
    file_name := c.metadata.file_name
    file_path := c.metadata.file_path
    file_type := c.metadata.file_type
    chunk_size := c.metadata.chunk_size
    chunk_overlap := c.metadata.chunk_overlap }

/-- The upsert point of a chunk whose embedding is present. -/
def pointOf (c : DocumentChunk) : UpsertPoint :=
  { id := c.id, vector := c.embedding.getD [], payload := payloadOf c }

/-- `points = currentFileState.chunks.map ...` (`pipelineService.ts` lines
130-142): builds one point per chunk, throwing on the first chunk whose
embedding is missing. -/
def pointsOfChunks : List DocumentChunk → Except String (List UpsertPoint)
  | [] => .ok []
  | c :: rest =>
    match c.embedding with
    | none => .error ("Chunk " ++ c.id ++ " is missing an embedding.")
    | some _ =>
      match pointsOfChunks rest with
      | .error msg => .error msg
      | .ok ps => .ok (pointOf c :: ps)

/-- The Generate Embeddings `for` loop (`pipelineService.ts` lines 88-94)
over the remaining chunks, `j` being the index of the first of them.
Returns the chunk lists published after each iteration, the final chunk
list, and the error message if the embedder threw. -/
def embedStep (embed : Nat → Except String (List Int)) (j : Nat) :
    List DocumentChunk →
      List (List DocumentChunk) × List DocumentChunk × Option String
  | [] => ([], [], none)
  | c :: rest =>
    match embed j with
    | .error msg => ([], c :: rest, some msg)
    | .ok v =>
      let c' := { c with embedding := some v,
                         embeddingStatus := ProcessingStatus.completed }
      let r := embedStep embed (j + 1) rest
      ((c' :: rest) :: r.1.map (c' :: ·), c' :: r.2.1, r.2.2)

/-- Mark a chunk stored (`pipelineService.ts` line 157). -/
def markStored (c : DocumentChunk) : DocumentChunk :=
  { c with storageStatus := ProcessingStatus.completed }

/-- The batched upsert `for` loop (`pipelineService.ts` lines 146-161):
slice the next `BATCH_SIZE` points, upsert them with `wait: true`, then
mark the corresponding chunks stored and publish.  Returns the issued
store calls, the chunk lists published after each batch, the final chunk
list, and the error message if an upsert threw.  `b` numbers the batches
for the upsert oracle. -/
def storeStep (upsert : Nat → Except String Unit) (cn : String) (b : Nat)
    (points : List UpsertPoint) (chunks : List DocumentChunk) :
    List StoreCall × List (List DocumentChunk) × List DocumentChunk × Option String :=
  if points.isEmpty then ([], [], chunks, none)
  else
    let batch := points.take BATCH_SIZE
    match upsert b with
    | .error msg => ([.upsert cn true batch], [], chunks, some msg)
    | .ok _ =>
      let marked := (chunks.take batch.length).map markStored
      let rest := chunks.drop batch.length
      let r := storeStep upsert cn (b + 1) (points.drop BATCH_SIZE) rest
      (.upsert cn true batch :: r.1,
        (marked ++ rest) :: r.2.1.map (marked ++ ·),
        marked ++ r.2.2.1, r.2.2.2)
termination_by points.length
decreasing_by
  rename_i h
  have hne : points ≠ [] := by
    intro hnil
    rw [hnil] at h
    exact h rfl
  have : 0 < points.length := List.length_pos.mpr hne
  simp only [List.length_drop, BATCH_SIZE]
  omega

/-- The `catch` block of `processFile` (`pipelineService.ts` lines
170-187): set the job failed with the error message, and mark the stage
that was in progress (if any) failed with the same message as detail. -/
def handleCatch (st : ProcessedFile) (msg : String) : ProcessedFile :=
  let finalState : ProcessedFile :=
    { st with status := .failed, error := some msg }
  match st.steps.find? (fun s => decide (s.status = ProcessingStatus.inProgress)) with
  | some step => updateStepStatus finalState step.name .failed (some msg)
  | none => finalState

/-- The result of one `processFile` invocation: the job snapshots passed
to `onUpdate`, in order, and the store-client calls issued, in order. -/
structure RunResult where
  publishes : List ProcessedFile
  storeCalls : List StoreCall
deriving Repr

/-- `processFile` (`pipelineService.ts` lines 25-188), with the awaited
collaborator results supplied by `o`.  Each terminal branch lists the
snapshots published up to and including the end of the invocation. -/
def processFile (fileToProcess : ProcessedFile) (o : Oracles)
    (qdrantUrl qdrantApiKey collectionName : String) : RunResult :=
  let st0 : ProcessedFile := { fileToProcess with status := .inProgress }
  -- 1. Extract Text
  let stA := updateStepStatus st0 "Extract Text" .inProgress none
  match o.extractResult with
  | .error msg => { publishes := [stA, handleCatch stA msg], storeCalls := [] }
  | .ok extractedText =>
    let stB := { stA with extractedText := some extractedText }
    let stC := updateStepStatus stB "Extract Text" .completed
      (some (natRepr extractedText.length ++ " chars extracted."))
    -- 2. Clean Text
    let stD := updateStepStatus stC "Clean Text" .inProgress none
    let cleaned := cleanText extractedText
    let stE := { stD with cleanedText := some cleaned }
    let stF := updateStepStatus stE "Clean Text" .completed none
    -- 3. Chunk Text
    let stG := updateStepStatus stF "Chunk Text" .inProgress none
    let chunks := chunkText stG.id (metaOf stG) cleaned
    let stH := { stG with chunks := chunks }
    let stI := updateStepStatus stH "Chunk Text" .completed
      (some (natRepr chunks.length ++ " chunks created."))
    -- 4. Generate Embeddings
    let stJ := updateStepStatus stI "Generate Embeddings" .inProgress none
    let emb := embedStep o.embedResult 0 stJ.chunks
    let embPubs := emb.1.map (fun cs => { stJ with chunks := cs })
    let stK := { stJ with chunks := emb.2.1 }
    match emb.2.2 with
    | some msg =>
      { publishes := [stA, stC, stD, stF, stG, stI, stJ] ++ embPubs ++
          [handleCatch stK msg],
        storeCalls := [] }
    | none =>
      let stL := updateStepStatus stK "Generate Embeddings" .completed
        (some ("Embeddings created for " ++ natRepr stK.chunks.length ++ " chunks."))
      -- 5. Store in Qdrant
      let stM := updateStepStatus stL "Store in Qdrant" .inProgress none
      if qdrantUrl = "" ∨ qdrantApiKey = "" ∨ collectionName = "" then
        { publishes := [stA, stC, stD, stF, stG, stI, stJ] ++ embPubs ++
            [stL, stM,
              handleCatch stM "Qdrant URL, API Key, and Collection Name must be provided."],
          storeCalls := [] }
      else
        let stN := updateStepStatus stM "Store in Qdrant" .inProgress
          (some "Connecting to Qdrant cluster...")
        match o.getCollectionsResult with
        | .error msg =>
          { publishes := [stA, stC, stD, stF, stG, stI, stJ] ++ embPubs ++
              [stL, stM, stN, handleCatch stN msg],
            storeCalls := [.getCollections] }
        | .ok names =>
          let exists_ := collectionName ∈ names
          let createPubs :=
            if exists_ then []
            else [updateStepStatus stN "Store in Qdrant" .inProgress
              (some ("Collection '" ++ collectionName ++ "' not found. Creating..."))]
          let createCalls : List StoreCall :=
            if exists_ then []
            else [.createCollection collectionName VECTOR_DIMENSION "Cosine"]
          let stO :=
            if exists_ then stN
            else updateStepStatus stN "Store in Qdrant" .inProgress
              (some ("Collection '" ++ collectionName ++ "' not found. Creating..."))
          match (if exists_ then Except.ok () else o.createCollectionResult) with
          | .error msg =>
            { publishes := [stA, stC, stD, stF, stG, stI, stJ] ++ embPubs ++
                [stL, stM, stN] ++ createPubs ++ [handleCatch stO msg],
              storeCalls := [.getCollections] ++ createCalls }
          | .ok _ =>
            let stP := updateStepStatus stO "Store in Qdrant" .inProgress
              (some ("Upserting " ++ natRepr stO.chunks.length ++ " vectors..."))
            match pointsOfChunks stP.chunks with
            | .error msg =>
              { publishes := [stA, stC, stD, stF, stG, stI, stJ] ++ embPubs ++
                  [stL, stM, stN] ++ createPubs ++ [stP, handleCatch stP msg],
                storeCalls := [.getCollections] ++ createCalls }
            | .ok points =>
              let sres := storeStep o.upsertResult collectionName 0 points stP.chunks
              let storePubs := sres.2.1.map (fun cs => { stP with chunks := cs })
              let stQ0 := { stP with chunks := sres.2.2.1 }
              match sres.2.2.2 with
              | some msg =>
                { publishes := [stA, stC, stD, stF, stG, stI, stJ] ++ embPubs ++
                    [stL, stM, stN] ++ createPubs ++ [stP] ++ storePubs ++
                    [handleCatch stQ0 msg],
                  storeCalls := [.getCollections] ++ createCalls ++ sres.1 }
              | none =>
                let stQ := updateStepStatus stQ0 "Store in Qdrant" .completed
                  (some (natRepr stQ0.chunks.length ++ " vectors stored in '" ++
                    collectionName ++ "'."))
                -- Finalize
                let stR := { stQ with status := ProcessingStatus.completed }
                { publishes := [stA, stC, stD, stF, stG, stI, stJ] ++ embPubs ++
                    [stL, stM, stN] ++ createPubs ++ [stP] ++ storePubs ++
                    [stQ, stR],
                  storeCalls := [.getCollections] ++ createCalls ++ sres.1 }

/-- A sample chunk metadata record, used to instantiate theorems. -/
def exMeta : ChunkMetadata :=
  { file_name := "a.txt", file_path := "a.txt", file_type := "text/plain",
    chunk_size := CHUNK_SIZE, chunk_overlap := CHUNK_OVERLAP }

/-- The reassembly of a chunk sequence named by claim C10: the first
chunk's text followed by every later chunk's text with its first
`CHUNK_OVERLAP` characters dropped. -/
def reassemble (chunks : List DocumentChunk) : List Char :=
  ((chunks.take 1).map (fun c => c.text)).flatten ++
    ((chunks.drop 1).map (fun c => c.text.drop CHUNK_OVERLAP)).flatten

/-- A sample file reference, used to instantiate theorems. -/
def exFile : FileRef :=
  { name := "a.txt", webkitRelativePath := "", type := "text/plain" }

/-- A sample freshly-created job, as built by `handleFilesAdded`. -/
def exJob : ProcessedFile :=
  { id := "a.txt-0-0", file := exFile, status := .pending, steps := initialSteps,
    chunks := [], extractedText := none, cleanedText := none, error := none }

/-- The stage names of a job's steps, in order. -/
def stepNames (p : ProcessedFile) : List String :=
  p.steps.map (fun s => s.name)

/-- The stage statuses of a job's steps, in order. -/
def stepStatuses (p : ProcessedFile) : List ProcessingStatus :=
  p.steps.map (fun s => s.status)

/-- The per-snapshot stage invariant: the statuses read, in order, as a
block of `completed`, then at most one stage that is `in-progress` or
`failed` (or still `pending`), then only `pending` stages.  Equivalently:
the completed stages form an initial segment of the stage order, at most
one stage is in progress, everything after it is pending, and after a
failed stage every stage is pending. -/
def statusesOK : List ProcessingStatus → Bool
  | [] => true
  | s :: rest =>
    if s = ProcessingStatus.completed then statusesOK rest
    else rest.all (fun t => decide (t = ProcessingStatus.pending))

/-- Forward order on stage statuses: `pending` may become anything,
`in-progress` may become `completed` or `failed` (or stay), and
`completed`/`failed` are final. -/
def statusLe : ProcessingStatus → ProcessingStatus → Bool
  | .pending, _ => true
  | .inProgress, t => decide (t ≠ ProcessingStatus.pending)
  | .completed, t => decide (t = ProcessingStatus.completed)
  | .failed, t => decide (t = ProcessingStatus.failed)

/-- Pointwise forward movement between two status lists of equal length. -/
def statusesAdvance : List ProcessingStatus → List ProcessingStatus → Bool
  | [], [] => true
  | a :: as, b :: bs => statusLe a b && statusesAdvance as bs
  | _, _ => false

/-- Every adjacent pair of status lists in a trace moves forward. -/
def chainAdvance : List (List ProcessingStatus) → Bool
  | [] => true
  | [_] => true
  | a :: b :: rest => statusesAdvance a b && chainAdvance (b :: rest)

/-- The chunk metadata determined by a file reference: the value `metaOf`
takes on any state carrying that file. -/
def metaOfF (fr : FileRef) : ChunkMetadata :=
  { file_name := fr.name
    file_path := if fr.webkitRelativePath = "" then fr.name else fr.webkitRelativePath
    file_type := fr.type
    chunk_size := CHUNK_SIZE
    chunk_overlap := CHUNK_OVERLAP }

/-- Oracles for a fully successful run on a two-character document. -/
def exOracles : Oracles :=
  { extractResult := .ok ['h', 'i']
    embedResult := fun _ => .ok [1]
    getCollectionsResult := .ok ["col"]
    createCollectionResult := .ok ()
    upsertResult := fun _ => .ok () }

/-- Oracles whose embedder succeeds on the first two chunks and fails on
the third with message `boom`. -/
def exOraclesEmbedFail : Oracles :=
  { extractResult := .ok (List.replicate 3300 'a')
    embedResult := fun j => if j < 2 then .ok [1] else .error "boom"
    getCollectionsResult := .ok ["col"]
    createCollectionResult := .ok ()
    upsertResult := fun _ => .ok () }

/-- The partition of the point list that the batched upsert loop walks:
slices of `BATCH_SIZE` points, in order. -/
def toBatches {α : Type} : List α → List (List α)
  | [] => []
  | x :: xs => ((x :: xs).take BATCH_SIZE) :: toBatches ((x :: xs).drop BATCH_SIZE)
termination_by l => l.length
decreasing_by
  simp only [List.length_drop, List.length_cons, BATCH_SIZE]
  omega

/-! ### Lemmas and claim theorems -/

/-! ### Chunker lemmas -/

/-- The position of the failed stage in a failed snapshot: the number of
leading completed stages. -/
def failK (p : ProcessedFile) : Nat :=
  ((stepStatuses p).takeWhile
    (fun s => decide (s = ProcessingStatus.completed))).length

lemma chunkStep_eq : CHUNK_SIZE - CHUNK_OVERLAP = 800 := rfl

lemma chunkGo_closed (fid : String) (meta : ChunkMetadata) (txt : List Char) :
    ∀ n i idx, txt.length - i ≤ n →
      chunkGo fid meta txt i idx =
        (List.range ((txt.length - i + 799) / 800)).map
          (fun j => mkChunk fid meta txt (i + 800 * j) (idx + j)) := by
  intro n
  induction n with
  | zero =>
    intro i idx h
    rw [chunkGo]
    have hi : ¬ i < txt.length := by omega
    have hz : (txt.length - i + 799) / 800 = 0 := by omega
    simp [hi, hz]
  | succ n ih =>
    intro i idx h
    rw [chunkGo]
    by_cases hi : i < txt.length
    · simp only [hi, if_true, chunkStep_eq]
      rw [ih (i + 800) (idx + 1) (by omega)]
      have hK : (txt.length - i + 799) / 800 =
          ((txt.length - (i + 800) + 799) / 800) + 1 := by omega
      rw [hK, List.range_succ_eq_map, List.map_cons, List.map_map]
      simp only [Nat.mul_zero, Nat.add_zero]
      congr 1
      apply List.map_congr_left
      intro j hj
      simp only [Function.comp_apply, Nat.succ_eq_add_one]
      rw [show i + 800 + 800 * j = i + 800 * (j + 1) by ring,
        show idx + 1 + j = idx + (j + 1) by ring]
    · have hz : (txt.length - i + 799) / 800 = 0 := by omega
      simp [hi, hz]

lemma chunkText_closed (fid : String) (meta : ChunkMetadata) (txt : List Char) :
    chunkText fid meta txt =
      (List.range ((txt.length + 799) / 800)).map
        (fun j => mkChunk fid meta txt (800 * j) j) := by
  rw [chunkText, chunkGo_closed fid meta txt txt.length 0 0 (by omega)]
  simp

lemma length_chunkText (fid : String) (meta : ChunkMetadata) (txt : List Char) :
    (chunkText fid meta txt).length = (txt.length + 799) / 800 := by
  rw [chunkText_closed]
  simp

lemma chunkText_map_text (fid : String) (meta : ChunkMetadata) (txt : List Char) :
    (chunkText fid meta txt).map (fun c => c.text) =
      (List.range ((txt.length + 799) / 800)).map
        (fun j => (txt.drop (800 * j)).take 1000) := by
  rw [chunkText_closed, List.map_map]
  rfl

lemma chunkText_map_id (fid : String) (meta : ChunkMetadata) (txt : List Char) :
    (chunkText fid meta txt).map (fun c => c.id) =
      (List.range ((txt.length + 799) / 800)).map
        (fun j => fid ++ "-chunk-" ++ natRepr j) := by
  rw [chunkText_closed, List.map_map]
  rfl

lemma chunkText_map_chunkIndex (fid : String) (meta : ChunkMetadata) (txt : List Char) :
    (chunkText fid meta txt).map (fun c => c.chunkIndex) =
      (List.range ((txt.length + 799) / 800)).map (fun j => j + 1) := by
  rw [chunkText_closed, List.map_map]
  rfl

/-! ### Injectivity of the decimal stringification used in chunk ids -/

lemma natDigits_ne_nil (n : Nat) : natDigits n ≠ [] := by
  rw [natDigits]
  split <;> simp

lemma natDigits_lt {n : Nat} (h : n < 10) : natDigits n = [Nat.digitChar n] := by
  rw [natDigits]
  simp [h]

lemma natDigits_ge {n : Nat} (h : ¬ n < 10) :
    natDigits n = natDigits (n / 10) ++ [Nat.digitChar (n % 10)] := by
  rw [natDigits]
  simp [h]

lemma digitChar_inj_lt10 :
    ∀ a, a < 10 → ∀ b, b < 10 → Nat.digitChar a = Nat.digitChar b → a = b := by
  decide

lemma natDigits_inj : ∀ a b : Nat, natDigits a = natDigits b → a = b := by
  intro a
  induction a using Nat.strong_induction_on with
  | _ a ih =>
    intro b h
    by_cases ha : a < 10 <;> by_cases hb : b < 10
    · rw [natDigits_lt ha, natDigits_lt hb] at h
      exact digitChar_inj_lt10 a ha b hb (List.cons.inj h).1
    · rw [natDigits_lt ha, natDigits_ge hb] at h
      have hlen := congrArg List.length h
      have hd := List.length_pos.mpr (natDigits_ne_nil (b / 10))
      simp only [List.length_append, List.length_cons, List.length_nil] at hlen
      omega
    · rw [natDigits_ge ha, natDigits_lt hb] at h
      have hlen := congrArg List.length h
      have hd := List.length_pos.mpr (natDigits_ne_nil (a / 10))
      simp only [List.length_append, List.length_cons, List.length_nil] at hlen
      omega
    · rw [natDigits_ge ha, natDigits_ge hb] at h
      have hlen : ([Nat.digitChar (a % 10)] : List Char).length =
          ([Nat.digitChar (b % 10)] : List Char).length := rfl
      obtain ⟨h1, h2⟩ := List.append_inj' h hlen
      have hdiv : a / 10 = b / 10 :=
        ih (a / 10) (Nat.div_lt_self (by omega) (by omega)) (b / 10) h1
      have hmod : a % 10 = b % 10 := by
        apply digitChar_inj_lt10 (a % 10) (by omega) (b % 10) (by omega)
        simpa using h2
      omega

lemma natRepr_inj {a b : Nat} (h : natRepr a = natRepr b) : a = b :=
  natDigits_inj a b (congrArg String.data h)

lemma chunkId_inj (fid : String) {a b : Nat}
    (h : fid ++ "-chunk-" ++ natRepr a = fid ++ "-chunk-" ++ natRepr b) : a = b := by
  apply natRepr_inj
  have hd := congrArg String.data h
  simp only [String.data_append] at hd
  have := List.append_cancel_left hd
  exact String.ext this

lemma flatten_windows (txt : List Char) :
    ∀ n s, ((List.range n).map
        (fun j => (txt.drop (s + 800 * j)).take 800)).flatten =
      (txt.drop s).take (800 * n) := by
  intro n
  induction n with
  | zero => simp
  | succ n ih =>
    intro s
    rw [List.range_succ, List.map_append, List.flatten_append, ih s]
    simp only [List.map_cons, List.map_nil, List.flatten_cons, List.flatten_nil,
      List.append_nil]
    rw [show s + 800 * n = s + 800 * n by rfl, ← List.drop_drop,
      ← List.take_add]
    rw [show 800 * n + 800 = 800 * (n + 1) by ring]

/-- C3 (number of chunks): the exact chunk count of the Chunk Text loop. -/
lemma chunk_count (fid : String) (meta : ChunkMetadata) (txt : List Char) :
    (chunkText fid meta txt).length = (txt.length + 799) / 800 :=
  length_chunkText fid meta txt

/-- C3 counterexample: for a cleaned text of length `L = 2500` with
`S = 1000`, `O = 200`, the chunker emits 4 chunks, but the claim's count
formula `ceil(max(L - O, 1) / (S - O))` yields `ceil(2300 / 800) = 3`. -/
theorem C3_counterexample :
    (chunkText "doc" exMeta (List.replicate 2500 'a')).length = 4 ∧
    (max (2500 - 200) 1 + 799) / 800 = 3 ∧ (4 : Nat) ≠ 3 := by
  refine ⟨?_, by norm_num, by norm_num⟩
  rw [length_chunkText, List.length_replicate]

/-- C3 (amended): the chunker emits windows at offsets `0, 800, 1600, ...`
while the offset is below the text length, each window being the next
1000 characters clipped to the text length; the number of chunks equals
`ceil(L / (S - O))`, i.e. `(L + 799) / 800`; concretely, a text of length
2500 yields 4 chunks with window lengths `[1000, 1000, 900, 100]`, the
last chunk having length 100. -/
theorem C3_chunk_windowing (fid : String) (meta : ChunkMetadata) (txt : List Char) :
    (chunkText fid meta txt).length = (txt.length + 799) / 800 ∧
    ((chunkText fid meta txt).map (fun c => c.text) =
      (List.range ((txt.length + 799) / 800)).map
        (fun j => (txt.drop (800 * j)).take 1000)) ∧
    (∀ k, k < (txt.length + 799) / 800 → 800 * k < txt.length) ∧
    (txt.length = 2500 →
      (chunkText fid meta txt).length = 4 ∧
      (chunkText fid meta txt).map (fun c => c.text.length) = [1000, 1000, 900, 100]) := by
  refine ⟨length_chunkText fid meta txt, chunkText_map_text fid meta txt, ?_, ?_⟩
  · intro k hk
    omega
  · intro hL
    constructor
    · rw [length_chunkText, hL]
    · have hmap : (chunkText fid meta txt).map (fun c => c.text.length) =
          (List.range ((txt.length + 799) / 800)).map
            (fun j => ((txt.drop (800 * j)).take 1000).length) := by
        rw [chunkText_closed, List.map_map]
        rfl
      rw [hmap, hL]
      norm_num [List.range_succ]
      omega

/-- C8: chunk identity is deterministic and stable: the id sequence is
exactly `fid ++ "-chunk-" ++ j` for the zero-based indices `j` (hence a
function of the job id and the cleaned-text length alone), the ids are
pairwise distinct within the job, and the 1-based `chunkIndex` fields are
assigned in chunking order. -/
theorem C8_chunk_identity (fid : String) (meta : ChunkMetadata) (txt : List Char) :
    (chunkText fid meta txt).map (fun c => c.id) =
      (List.range ((txt.length + 799) / 800)).map
        (fun j => fid ++ "-chunk-" ++ natRepr j) ∧
    ((chunkText fid meta txt).map (fun c => c.id)).Pairwise (· ≠ ·) ∧
    (chunkText fid meta txt).map (fun c => c.chunkIndex) =
      (List.range ((txt.length + 799) / 800)).map (fun j => j + 1) := by
  refine ⟨chunkText_map_id fid meta txt, ?_, chunkText_map_chunkIndex fid meta txt⟩
  rw [chunkText_map_id]
  rw [List.pairwise_map]
  apply List.Pairwise.imp ?_ (List.pairwise_lt_range _)
  intro a b hab heq
  exact absurd (chunkId_inj fid heq) (by omega)

/-- C9: the Chunk Text loop yields an empty chunk sequence exactly for the
empty cleaned text. -/
theorem C9_empty_iff (fid : String) (meta : ChunkMetadata) (txt : List Char) :
    chunkText fid meta txt = [] ↔ txt = [] := by
  rw [chunkText_closed]
  rw [List.map_eq_nil_iff, List.range_eq_nil, ← List.length_eq_zero]
  omega

/-- C10: the chunk windows losslessly cover the cleaned text: every chunk
text is non-empty, and the first chunk's text followed by each later
chunk's text with its first 200 characters dropped reconstructs the
cleaned text exactly. -/
theorem C10_lossless_coverage (fid : String) (meta : ChunkMetadata) (txt : List Char) :
    (∀ c ∈ chunkText fid meta txt, c.text ≠ []) ∧
    reassemble (chunkText fid meta txt) = txt := by
  constructor
  · intro c hc
    rw [chunkText_closed] at hc
    obtain ⟨j, hj, rfl⟩ := List.mem_map.mp hc
    rw [List.mem_range] at hj
    apply List.ne_nil_of_length_pos
    simp only [mkChunk, List.length_take, List.length_drop]
    have : 800 * j < txt.length := by omega
    simp only [CHUNK_SIZE]
    omega
  · rw [chunkText_closed, reassemble]
    rcases hK : (txt.length + 799) / 800 with _ | n
    · have : txt.length = 0 := by omega
      have : txt = [] := List.length_eq_zero.mp this
      simp [this]
    · rw [List.range_succ_eq_map]
      simp only [List.map_cons, List.map_nil, List.map_map, List.take_succ_cons,
        List.take_zero, List.drop_succ_cons, List.drop_zero, List.flatten_cons,
        List.flatten_nil, List.append_nil, List.take_nil]
      have hpiece : ∀ j : Nat,
          ((mkChunk fid meta txt (800 * Nat.succ j) (Nat.succ j)).text).drop CHUNK_OVERLAP =
            (txt.drop (1000 + 800 * j)).take 800 := by
        intro j
        simp only [mkChunk, CHUNK_SIZE, CHUNK_OVERLAP]
        rw [List.drop_take, List.drop_drop]
        congr 1
        congr 1
        omega
      have hrw : (List.range n).map
            ((fun c => c.text.drop CHUNK_OVERLAP) ∘
              ((fun j => mkChunk fid meta txt (800 * j) j) ∘ Nat.succ)) =
          (List.range n).map (fun j => (txt.drop (1000 + 800 * j)).take 800) := by
        apply List.map_congr_left
        intro j _
        exact hpiece j
      rw [hrw, flatten_windows txt n 1000]
      simp only [mkChunk, Nat.mul_zero, List.drop_zero, CHUNK_SIZE]
      rw [← List.take_add]
      apply List.take_of_length_le
      omega

/-- C3 witness: the concrete 2500-character instance of the windowing
theorem. -/
theorem C3_chunk_windowing_witness :
    (List.replicate 2500 'a').length = 2500 ∧
    (chunkText "doc" exMeta (List.replicate 2500 'a')).length = 4 ∧
    (chunkText "doc" exMeta (List.replicate 2500 'a')).map (fun c => c.text.length) =
      [1000, 1000, 900, 100] :=
  ⟨List.length_replicate 2500 'a',
    ((C3_chunk_windowing "doc" exMeta (List.replicate 2500 'a')).2.2.2
      (List.length_replicate 2500 'a')).1,
    ((C3_chunk_windowing "doc" exMeta (List.replicate 2500 'a')).2.2.2
      (List.length_replicate 2500 'a')).2⟩

/-- C7: the stage reporter `updateStepStatus` returns a new job in which
exactly the steps carrying the given stage name are replaced by a copy
with the new status and detail; all other steps and all other job fields
are unchanged, and no step is created or removed. -/
theorem C7_stage_reporter (f : ProcessedFile) (n : String) (s : ProcessingStatus)
    (d : Option String) :
    (updateStepStatus f n s d).steps.length = f.steps.length ∧
    (∀ i : Nat, (∀ step ∈ f.steps[i]?, step.name ≠ n) →
      (updateStepStatus f n s d).steps[i]? = f.steps[i]?) ∧
    (∀ i : Nat, ∀ step ∈ f.steps[i]?, step.name = n →
      (updateStepStatus f n s d).steps[i]? =
        some { step with status := s, details := d }) ∧
    (updateStepStatus f n s d).id = f.id ∧
    (updateStepStatus f n s d).file = f.file ∧
    (updateStepStatus f n s d).status = f.status ∧
    (updateStepStatus f n s d).chunks = f.chunks ∧
    (updateStepStatus f n s d).extractedText = f.extractedText ∧
    (updateStepStatus f n s d).cleanedText = f.cleanedText ∧
    (updateStepStatus f n s d).error = f.error := by
  refine ⟨by simp [updateStepStatus], ?_, ?_, rfl, rfl, rfl, rfl, rfl, rfl, rfl⟩
  · intro i hi
    simp only [updateStepStatus, List.getElem?_map]
    cases hstep : f.steps[i]? with
    | none => rfl
    | some step =>
      have hne := hi step (by simp [hstep])
      simp [hne]
  · intro i step hmem hname
    rw [Option.mem_def] at hmem
    simp only [updateStepStatus, List.getElem?_map, hmem, Option.map_some]
    simp [hname]

/-- C7 witness: updating the Clean Text stage of a fresh job leaves step 0
unchanged, replaces step 1, and leaves the error field unchanged. -/
theorem C7_stage_reporter_witness :
    (updateStepStatus exJob "Clean Text" ProcessingStatus.completed none).steps[0]? =
      exJob.steps[0]? ∧
    (updateStepStatus exJob "Clean Text" ProcessingStatus.completed none).steps[1]? =
      some { name := "Clean Text", status := ProcessingStatus.completed,
             details := none } ∧
    (updateStepStatus exJob "Clean Text" ProcessingStatus.completed none).error =
      exJob.error :=
  ⟨(C7_stage_reporter exJob "Clean Text" ProcessingStatus.completed none).2.1 0
      (by simp [exJob, initialSteps]),
    (C7_stage_reporter exJob "Clean Text" ProcessingStatus.completed none).2.2.1 1
      { name := "Clean Text", status := ProcessingStatus.pending, details := none }
      (by simp [exJob, initialSteps]) rfl,
    (C7_stage_reporter exJob "Clean Text" ProcessingStatus.completed none).2.2.2.2.2.2.2.2.2⟩

lemma map_eq_replicate {α β : Type} (l : List α) (c : β) :
    l.map (fun _ => c) = List.replicate l.length c := by
  induction l with
  | nil => rfl
  | cons a t ih => simp [ih, List.replicate_succ]

lemma chainAdvance_cons_replicate (a : List ProcessingStatus)
    (post : List (List ProcessingStatus)) (ha : statusesAdvance a a = true) :
    ∀ n, chainAdvance (a :: (List.replicate n a ++ post)) = chainAdvance (a :: post) := by
  intro n
  induction n with
  | zero => simp
  | succ n ih =>
    simp only [List.replicate_succ, List.cons_append, chainAdvance, ha, Bool.true_and]
    exact ih

/-! Projection lemmas keeping `updateStepStatus` and `metaOf` folded while
computing with pipeline states. -/

@[simp] lemma updateStepStatus_steps (p : ProcessedFile) (n : String)
    (s : ProcessingStatus) (d : Option String) :
    (updateStepStatus p n s d).steps = p.steps.map
      (fun step => if step.name = n
        then { step with status := s, details := d } else step) := rfl

@[simp] lemma updateStepStatus_id (p : ProcessedFile) (n : String)
    (s : ProcessingStatus) (d : Option String) :
    (updateStepStatus p n s d).id = p.id := rfl

@[simp] lemma updateStepStatus_file (p : ProcessedFile) (n : String)
    (s : ProcessingStatus) (d : Option String) :
    (updateStepStatus p n s d).file = p.file := rfl

@[simp] lemma updateStepStatus_status (p : ProcessedFile) (n : String)
    (s : ProcessingStatus) (d : Option String) :
    (updateStepStatus p n s d).status = p.status := rfl

@[simp] lemma updateStepStatus_chunks (p : ProcessedFile) (n : String)
    (s : ProcessingStatus) (d : Option String) :
    (updateStepStatus p n s d).chunks = p.chunks := rfl

@[simp] lemma updateStepStatus_extractedText (p : ProcessedFile) (n : String)
    (s : ProcessingStatus) (d : Option String) :
    (updateStepStatus p n s d).extractedText = p.extractedText := rfl

@[simp] lemma updateStepStatus_cleanedText (p : ProcessedFile) (n : String)
    (s : ProcessingStatus) (d : Option String) :
    (updateStepStatus p n s d).cleanedText = p.cleanedText := rfl

@[simp] lemma updateStepStatus_error (p : ProcessedFile) (n : String)
    (s : ProcessingStatus) (d : Option String) :
    (updateStepStatus p n s d).error = p.error := rfl

@[simp] lemma metaOf_eq (p : ProcessedFile) : metaOf p = metaOfF p.file := rfl

set_option maxHeartbeats 2000000 in
lemma trace_master (f0 : ProcessedFile) (o : Oracles) (url key cn : String)
    (h : f0.steps = initialSteps) :
    (∀ p ∈ (processFile f0 o url key cn).publishes,
        stepNames p = stageNames ∧ statusesOK (stepStatuses p) = true) ∧
    chainAdvance ((processFile f0 o url key cn).publishes.map stepStatuses) = true ∧
    (∀ p ∈ (processFile f0 o url key cn).publishes.dropLast,
        p.status = ProcessingStatus.inProgress ∧
        (stepStatuses p).all (fun s => decide (s ≠ ProcessingStatus.failed)) = true) := by
  rcases hx : o.extractResult with msg | t
  · simp [processFile, hx, updateStepStatus, handleCatch, h, initialSteps, List.find?,
      stepNames, stepStatuses, stageNames, statusesOK, chainAdvance, statusesAdvance,
      statusLe]
  · rcases hE : embedStep o.embedResult 0
        (chunkText f0.id (metaOfF f0.file) (cleanText t)) with ⟨snaps, fin, err⟩
    rcases err with _ | msg
    · by_cases hcfg : url = "" ∨ key = "" ∨ cn = ""
      · simp [processFile, hx, hE, handleCatch, h, initialSteps, List.find?,
        stepNames, stepStatuses, stageNames, statusesOK, chainAdvance,
        statusesAdvance, statusLe, map_eq_replicate, chainAdvance_cons_replicate,
        List.forall_mem_map, List.dropLast_append_of_ne_nil,
        List.dropLast_cons_of_ne_nil, Function.comp_def,
        or_imp, forall_and, forall_eq, forall_eq', forall_apply_eq_imp_iff,
        forall_apply_eq_imp_iff₂, forall_exists_index, List.mem_map, hcfg]
      · rcases hg : o.getCollectionsResult with gmsg | names
        · simp [processFile, hx, hE, handleCatch, h, initialSteps, List.find?,
        stepNames, stepStatuses, stageNames, statusesOK, chainAdvance,
        statusesAdvance, statusLe, map_eq_replicate, chainAdvance_cons_replicate,
        List.forall_mem_map, List.dropLast_append_of_ne_nil,
        List.dropLast_cons_of_ne_nil, Function.comp_def,
        or_imp, forall_and, forall_eq, forall_eq', forall_apply_eq_imp_iff,
        forall_apply_eq_imp_iff₂, forall_exists_index, List.mem_map, hcfg, hg]
        · by_cases hmem : cn ∈ names
          · rcases hpts : pointsOfChunks fin with pmsg | points
            · simp [processFile, hx, hE, handleCatch, h, initialSteps, List.find?,
        stepNames, stepStatuses, stageNames, statusesOK, chainAdvance,
        statusesAdvance, statusLe, map_eq_replicate, chainAdvance_cons_replicate,
        List.forall_mem_map, List.dropLast_append_of_ne_nil,
        List.dropLast_cons_of_ne_nil, Function.comp_def,
        or_imp, forall_and, forall_eq, forall_eq', forall_apply_eq_imp_iff,
        forall_apply_eq_imp_iff₂, forall_exists_index, List.mem_map, hcfg, hg, hmem, hpts]
            · rcases hS : storeStep o.upsertResult cn 0 points fin with
                ⟨calls, ssnaps, sfin, serr⟩
              rcases serr with _ | smsg
              · simp [processFile, hx, hE, handleCatch, h, initialSteps, List.find?,
        stepNames, stepStatuses, stageNames, statusesOK, chainAdvance,
        statusesAdvance, statusLe, map_eq_replicate, chainAdvance_cons_replicate,
        List.forall_mem_map, List.dropLast_append_of_ne_nil,
        List.dropLast_cons_of_ne_nil, Function.comp_def,
        or_imp, forall_and, forall_eq, forall_eq', forall_apply_eq_imp_iff,
        forall_apply_eq_imp_iff₂, forall_exists_index, List.mem_map, hcfg, hg, hmem, hpts, hS]
              · simp [processFile, hx, hE, handleCatch, h, initialSteps, List.find?,
        stepNames, stepStatuses, stageNames, statusesOK, chainAdvance,
        statusesAdvance, statusLe, map_eq_replicate, chainAdvance_cons_replicate,
        List.forall_mem_map, List.dropLast_append_of_ne_nil,
        List.dropLast_cons_of_ne_nil, Function.comp_def,
        or_imp, forall_and, forall_eq, forall_eq', forall_apply_eq_imp_iff,
        forall_apply_eq_imp_iff₂, forall_exists_index, List.mem_map, hcfg, hg, hmem, hpts, hS]
          · rcases hc : o.createCollectionResult with cmsg | u
            · simp [processFile, hx, hE, handleCatch, h, initialSteps, List.find?,
        stepNames, stepStatuses, stageNames, statusesOK, chainAdvance,
        statusesAdvance, statusLe, map_eq_replicate, chainAdvance_cons_replicate,
        List.forall_mem_map, List.dropLast_append_of_ne_nil,
        List.dropLast_cons_of_ne_nil, Function.comp_def,
        or_imp, forall_and, forall_eq, forall_eq', forall_apply_eq_imp_iff,
        forall_apply_eq_imp_iff₂, forall_exists_index, List.mem_map, hcfg, hg, hmem, hc]
            · rcases hpts : pointsOfChunks fin with pmsg | points
              · simp [processFile, hx, hE, handleCatch, h, initialSteps, List.find?,
        stepNames, stepStatuses, stageNames, statusesOK, chainAdvance,
        statusesAdvance, statusLe, map_eq_replicate, chainAdvance_cons_replicate,
        List.forall_mem_map, List.dropLast_append_of_ne_nil,
        List.dropLast_cons_of_ne_nil, Function.comp_def,
        or_imp, forall_and, forall_eq, forall_eq', forall_apply_eq_imp_iff,
        forall_apply_eq_imp_iff₂, forall_exists_index, List.mem_map, hcfg, hg, hmem, hc, hpts]
              · rcases hS : storeStep o.upsertResult cn 0 points fin with
                  ⟨calls, ssnaps, sfin, serr⟩
                rcases serr with _ | smsg
                · simp [processFile, hx, hE, handleCatch, h, initialSteps, List.find?,
        stepNames, stepStatuses, stageNames, statusesOK, chainAdvance,
        statusesAdvance, statusLe, map_eq_replicate, chainAdvance_cons_replicate,
        List.forall_mem_map, List.dropLast_append_of_ne_nil,
        List.dropLast_cons_of_ne_nil, Function.comp_def,
        or_imp, forall_and, forall_eq, forall_eq', forall_apply_eq_imp_iff,
        forall_apply_eq_imp_iff₂, forall_exists_index, List.mem_map, hcfg, hg, hmem, hc, hpts, hS]
                · simp [processFile, hx, hE, handleCatch, h, initialSteps, List.find?,
        stepNames, stepStatuses, stageNames, statusesOK, chainAdvance,
        statusesAdvance, statusLe, map_eq_replicate, chainAdvance_cons_replicate,
        List.forall_mem_map, List.dropLast_append_of_ne_nil,
        List.dropLast_cons_of_ne_nil, Function.comp_def,
        or_imp, forall_and, forall_eq, forall_eq', forall_apply_eq_imp_iff,
        forall_apply_eq_imp_iff₂, forall_exists_index, List.mem_map, hcfg, hg, hmem, hc, hpts, hS]
    · simp [processFile, hx, hE, handleCatch, h, initialSteps, List.find?,
        stepNames, stepStatuses, stageNames, statusesOK, chainAdvance,
        statusesAdvance, statusLe, map_eq_replicate, chainAdvance_cons_replicate,
        List.forall_mem_map, List.dropLast_append_of_ne_nil,
        List.dropLast_cons_of_ne_nil, Function.comp_def,
        or_imp, forall_and, forall_eq, forall_eq', forall_apply_eq_imp_iff,
        forall_apply_eq_imp_iff₂, forall_exists_index, List.mem_map]

/-- C1 (amended): for every invocation of `processFile` on a job created
with the five pending stages, every published snapshot keeps the five
stage names, satisfies the per-snapshot stage invariant (at most one
stage `in-progress`, all stages before it `completed`, all stages after
it `pending`, the completed stages a — not necessarily strict — initial
segment of the stage order, and after a `failed` stage only `pending`
ones), stage statuses only move forward between consecutive snapshots,
and no snapshot before the final one shows a failed stage or a
non-in-progress job. -/
theorem C1_stage_monotonicity (f0 : ProcessedFile) (o : Oracles)
    (url key cn : String) (h : f0.steps = initialSteps) :
    (∀ p ∈ (processFile f0 o url key cn).publishes,
        stepNames p = stageNames ∧ statusesOK (stepStatuses p) = true) ∧
    chainAdvance ((processFile f0 o url key cn).publishes.map stepStatuses) = true ∧
    (∀ p ∈ (processFile f0 o url key cn).publishes.dropLast,
        p.status = ProcessingStatus.inProgress ∧
        (stepStatuses p).all (fun s => decide (s ≠ ProcessingStatus.failed)) = true) :=
  trace_master f0 o url key cn h

/-- C1 witness: the monotonicity theorem instantiated on a concrete
successful run. -/
theorem C1_stage_monotonicity_witness :
    (∀ p ∈ (processFile exJob exOracles "http://q" "k" "col").publishes,
        stepNames p = stageNames ∧ statusesOK (stepStatuses p) = true) ∧
    chainAdvance ((processFile exJob exOracles "http://q" "k" "col").publishes.map
      stepStatuses) = true ∧
    (∀ p ∈ (processFile exJob exOracles "http://q" "k" "col").publishes.dropLast,
        p.status = ProcessingStatus.inProgress ∧
        (stepStatuses p).all (fun s => decide (s ≠ ProcessingStatus.failed)) = true) :=
  C1_stage_monotonicity exJob exOracles "http://q" "k" "col" rfl

/-- C5 counterexample: the fifth stage created by `handleFilesAdded` and
updated by `processFile` is named `Store in Qdrant`, not `Store`. -/
theorem C5_counterexample :
    initialSteps.map (fun s => s.name) =
      ["Extract Text", "Clean Text", "Chunk Text", "Generate Embeddings",
        "Store in Qdrant"] ∧
    initialSteps.map (fun s => s.name) ≠
      ["Extract Text", "Clean Text", "Chunk Text", "Generate Embeddings", "Store"] := by
  constructor <;> decide

/-- C5 (amended): every job starts with exactly the 5 stage records named
`Extract Text`, `Clean Text`, `Chunk Text`, `Generate Embeddings`,
`Store in Qdrant` in this order, and every snapshot published by
`processFile` keeps exactly these 5 names in this order. -/
theorem C5_stage_names (f0 : ProcessedFile) (o : Oracles)
    (url key cn : String) (h : f0.steps = initialSteps) :
    initialSteps.length = 5 ∧
    initialSteps.map (fun s => s.name) = stageNames ∧
    (∀ p ∈ (processFile f0 o url key cn).publishes,
      p.steps.length = 5 ∧ stepNames p = stageNames) := by
  refine ⟨rfl, rfl, ?_⟩
  intro p hp
  have hn := ((trace_master f0 o url key cn h).1 p hp).1
  refine ⟨?_, hn⟩
  have := congrArg List.length hn
  simpa [stepNames, stageNames] using this

/-- C5 witness: the stage-name theorem instantiated on a concrete run. -/
theorem C5_stage_names_witness :
    initialSteps.length = 5 ∧
    initialSteps.map (fun s => s.name) = stageNames ∧
    (∀ p ∈ (processFile exJob exOracles "http://q" "k" "col").publishes,
      p.steps.length = 5 ∧ stepNames p = stageNames) :=
  C5_stage_names exJob exOracles "http://q" "k" "col" rfl

set_option maxHeartbeats 2000000 in
set_option maxRecDepth 8000 in
/-- C1 counterexample to the strict-prefix reading: on a successful run,
the final published snapshot has all five stages `completed`, so the set
of completed stages equals the whole 5-stage order and is not a *strict*
(proper) initial segment of it. -/
theorem C1_counterexample :
    ((processFile exJob exOracles "http://q" "k" "col").publishes.map
      stepStatuses).getLast? =
      some [ProcessingStatus.completed, ProcessingStatus.completed,
        ProcessingStatus.completed, ProcessingStatus.completed,
        ProcessingStatus.completed] ∧
    stageNames.length = 5 := by
  have hclean : cleanText ['h', 'i'] = ['h', 'i'] := by decide
  have hch : chunkText "a.txt-0-0" (metaOfF exFile) ['h', 'i'] =
      [mkChunk "a.txt-0-0" (metaOfF exFile) ['h', 'i'] 0 0] := by
    rw [chunkText_closed]
    norm_num [List.range_succ]
  have hE : embedStep exOracles.embedResult 0
      [mkChunk "a.txt-0-0" (metaOfF exFile) ['h', 'i'] 0 0] =
      ([[{ mkChunk "a.txt-0-0" (metaOfF exFile) ['h', 'i'] 0 0 with
            embedding := some [1], embeddingStatus := ProcessingStatus.completed }]],
       [{ mkChunk "a.txt-0-0" (metaOfF exFile) ['h', 'i'] 0 0 with
            embedding := some [1], embeddingStatus := ProcessingStatus.completed }],
       none) := by
    simp [embedStep, exOracles]
  have hpts : pointsOfChunks
      [{ mkChunk "a.txt-0-0" (metaOfF exFile) ['h', 'i'] 0 0 with
          embedding := some [1], embeddingStatus := ProcessingStatus.completed }] =
      Except.ok [pointOf { mkChunk "a.txt-0-0" (metaOfF exFile) ['h', 'i'] 0 0 with
          embedding := some [1], embeddingStatus := ProcessingStatus.completed }] := by
    simp [pointsOfChunks, mkChunk]
  have hS : storeStep exOracles.upsertResult "col" 0
      [pointOf { mkChunk "a.txt-0-0" (metaOfF exFile) ['h', 'i'] 0 0 with
          embedding := some [1], embeddingStatus := ProcessingStatus.completed }]
      [{ mkChunk "a.txt-0-0" (metaOfF exFile) ['h', 'i'] 0 0 with
          embedding := some [1], embeddingStatus := ProcessingStatus.completed }] =
      ([StoreCall.upsert "col" true
          [pointOf { mkChunk "a.txt-0-0" (metaOfF exFile) ['h', 'i'] 0 0 with
              embedding := some [1], embeddingStatus := ProcessingStatus.completed }]],
       [[markStored { mkChunk "a.txt-0-0" (metaOfF exFile) ['h', 'i'] 0 0 with
            embedding := some [1], embeddingStatus := ProcessingStatus.completed }]],
       [markStored { mkChunk "a.txt-0-0" (metaOfF exFile) ['h', 'i'] 0 0 with
            embedding := some [1], embeddingStatus := ProcessingStatus.completed }],
       none) := by
    rw [storeStep]
    simp [exOracles, BATCH_SIZE, storeStep]
  have hx : exOracles.extractResult = Except.ok ['h', 'i'] := rfl
  have hg : exOracles.getCollectionsResult = Except.ok ["col"] := rfl
  have hsteps : exJob.steps = initialSteps := rfl
  have hid : exJob.id = "a.txt-0-0" := rfl
  have hfile : exJob.file = exFile := rfl
  refine ⟨?_, rfl⟩
  simp [processFile, hx, hg, hsteps, hid, hfile, hclean, hch, hE, hpts, hS,
    initialSteps, stepStatuses, List.getLast?_append]

lemma getLast?_cons_append_singleton {α : Type} (a : α) (l : List α) (b : α) :
    (a :: (l ++ [b])).getLast? = some b := by
  have hsplit : a :: (l ++ [b]) = (a :: l) ++ [b] := rfl
  rw [hsplit, List.getLast?_append]
  simp

lemma embedStep_err_none (embed : Nat → Except String (List Int))
    (hok : ∀ j, ∃ v, embed j = .ok v) :
    ∀ (chunks : List DocumentChunk) (j0 : Nat),
      (embedStep embed j0 chunks).2.2 = none := by
  intro chunks
  induction chunks with
  | nil => intro j0; rfl
  | cons c rest ih =>
    intro j0
    obtain ⟨v, hv⟩ := hok j0
    simp [embedStep, hv, ih]

lemma collapseWs_no_ws : ∀ l : List Char, (∀ c ∈ l, isWs c = false) →
    collapseWs l = l := by
  intro l
  induction l with
  | nil => intro _; rfl
  | cons c rest ih =>
    intro hl
    cases rest with
    | nil => simp [collapseWs, hl c (by simp)]
    | cons c2 r =>
      have hc := hl c (by simp)
      have hrest : ∀ x ∈ c2 :: r, isWs x = false := fun x hx => hl x (by simp [hx])
      simp [collapseWs, hc, ih hrest]

lemma dropWhile_no_ws (l : List Char) (h : ∀ c ∈ l, isWs c = false) :
    l.dropWhile isWs = l := by
  cases l with
  | nil => rfl
  | cons c r => simp [List.dropWhile_cons, h c (by simp)]

lemma cleanText_no_ws (l : List Char) (h : ∀ c ∈ l, isWs c = false) :
    cleanText l = l := by
  rw [cleanText, collapseWs_no_ws l h, trimWs, dropWhile_no_ws l h,
    dropWhile_no_ws _ (fun c hc => h c (List.mem_reverse.mp hc)),
    List.reverse_reverse]

lemma cleanText_replicate_a : cleanText (List.replicate 3300 'a') =
    List.replicate 3300 'a' :=
  cleanText_no_ws _ (fun c hc => by rw [List.eq_of_mem_replicate hc]; rfl)

lemma getLast?_cons_append {α : Type} (a : α) (l l2 : List α) (h : l2 ≠ []) :
    (a :: (l ++ l2)).getLast? = l2.getLast? := by
  have hsplit : a :: (l ++ l2) = (a :: l) ++ l2 := rfl
  rw [hsplit, List.getLast?_append]
  obtain ⟨x, hx⟩ := Option.isSome_iff_exists.mp (List.getLast?_isSome.mpr h)
  rw [hx]
  rfl

set_option maxHeartbeats 2000000 in
set_option maxRecDepth 8000 in
/-- C4: when the endpoint, credential or collection name is empty and the
first four stages succeed, the storage stage fails before any
store-client call: no store call is issued, the job ends failed with the
configuration message, stages 1-4 stay completed and the Store stage is
failed with that message as detail. -/
theorem C4_config_fast_fail (f0 : ProcessedFile) (o : Oracles)
    (url key cn : String) (t : List Char)
    (h : f0.steps = initialSteps) (hx : o.extractResult = .ok t)
    (hembed : ∀ j, ∃ v, o.embedResult j = .ok v)
    (hcfg : url = "" ∨ key = "" ∨ cn = "") :
    (processFile f0 o url key cn).storeCalls = [] ∧
    ((processFile f0 o url key cn).publishes.map
        (fun p => p.status)).getLast? = some ProcessingStatus.failed ∧
    ((processFile f0 o url key cn).publishes.map
        (fun p => p.error)).getLast? =
      some (some "Qdrant URL, API Key, and Collection Name must be provided.") ∧
    ((processFile f0 o url key cn).publishes.map stepStatuses).getLast? =
      some [ProcessingStatus.completed, ProcessingStatus.completed,
        ProcessingStatus.completed, ProcessingStatus.completed,
        ProcessingStatus.failed] ∧
    ((processFile f0 o url key cn).publishes.map
        (fun p => p.steps[4]?)).getLast? =
      some (some (ProcessingStep.mk "Store in Qdrant" ProcessingStatus.failed
        (some "Qdrant URL, API Key, and Collection Name must be provided."))) := by
  rcases hE : embedStep o.embedResult 0
      (chunkText f0.id (metaOfF f0.file) (cleanText t)) with ⟨snaps, fin, err⟩
  have herr : err = none := by
    have hn := embedStep_err_none o.embedResult hembed
      (chunkText f0.id (metaOfF f0.file) (cleanText t)) 0
    rw [hE] at hn
    exact hn
  subst herr
  have hcond : (url = "" ∨ key = "" ∨ cn = "") = True := eq_true hcfg
  simp [processFile, hx, hE, hcond, handleCatch, h, initialSteps, List.find?,
    stepStatuses, getLast?_cons_append, List.getLast?_append,
    getLast?_cons_append_singleton]

/-- C4 witness: a concrete run with an empty collection name issues no
store call and ends failed with the configuration message. -/
theorem C4_config_fast_fail_witness :
    (processFile exJob exOracles "http://q" "k" "").storeCalls = [] ∧
    ((processFile exJob exOracles "http://q" "k" "").publishes.map
        (fun p => p.status)).getLast? = some ProcessingStatus.failed ∧
    ((processFile exJob exOracles "http://q" "k" "").publishes.map
        (fun p => p.error)).getLast? =
      some (some "Qdrant URL, API Key, and Collection Name must be provided.") ∧
    ((processFile exJob exOracles "http://q" "k" "").publishes.map
        stepStatuses).getLast? =
      some [ProcessingStatus.completed, ProcessingStatus.completed,
        ProcessingStatus.completed, ProcessingStatus.completed,
        ProcessingStatus.failed] ∧
    ((processFile exJob exOracles "http://q" "k" "").publishes.map
        (fun p => p.steps[4]?)).getLast? =
      some (some (ProcessingStep.mk "Store in Qdrant" ProcessingStatus.failed
        (some "Qdrant URL, API Key, and Collection Name must be provided."))) :=
  C4_config_fast_fail exJob exOracles "http://q" "k" "" ['h', 'i'] rfl rfl
    (fun _ => ⟨[1], rfl⟩) (Or.inr (Or.inr rfl))

lemma pointsOfChunks_ok : ∀ chunks : List DocumentChunk,
    (∀ c ∈ chunks, c.embedding.isSome) →
    pointsOfChunks chunks = Except.ok (chunks.map pointOf) := by
  intro chunks
  induction chunks with
  | nil => intro _; rfl
  | cons c rest ih =>
    intro h
    obtain ⟨v, hv⟩ := Option.isSome_iff_exists.mp (h c (by simp))
    simp [pointsOfChunks, hv, ih (fun x hx => h x (by simp [hx]))]

lemma embedStep_embedded (embed : Nat → Except String (List Int))
    (hok : ∀ j, ∃ v, embed j = .ok v) :
    ∀ (chunks : List DocumentChunk) (j0 : Nat),
      ∀ c ∈ (embedStep embed j0 chunks).2.1, c.embedding.isSome := by
  intro chunks
  induction chunks with
  | nil => intro j0 c hc; simp [embedStep] at hc
  | cons a rest ih =>
    intro j0 c hc
    obtain ⟨v, hv⟩ := hok j0
    simp only [embedStep, hv] at hc
    rcases List.mem_cons.mp hc with hc | hc
    · rw [hc]
      rfl
    · exact ih (j0 + 1) c hc

set_option maxHeartbeats 2000000 in
lemma storeStep_ok (upsert : Nat → Except String Unit) (cn : String)
    (hok : ∀ b, upsert b = .ok ()) :
    ∀ (n : Nat) (points : List UpsertPoint) (chunks : List DocumentChunk) (b : Nat),
      points.length ≤ n → chunks.length = points.length →
      storeStep upsert cn b points chunks =
        ((toBatches points).map (fun bt => StoreCall.upsert cn true bt),
         (List.range (toBatches points).length).map
           (fun k => (chunks.take (100 * (k + 1))).map markStored ++
             chunks.drop (100 * (k + 1))),
         chunks.map markStored, none) := by
  intro n
  induction n with
  | zero =>
    intro points chunks b hn hlen
    have hp : points = [] := List.length_eq_zero.mp (by omega)
    subst hp
    have hc : chunks = [] := List.length_eq_zero.mp (by simpa using hlen)
    subst hc
    simp [storeStep, toBatches]
  | succ n ih =>
    intro points chunks b hn hlen
    cases points with
    | nil =>
      have hc : chunks = [] := List.length_eq_zero.mp (by simpa using hlen)
      subst hc
      simp [storeStep, toBatches]
    | cons p ps =>
      simp only [List.length_cons] at hn hlen
      rw [storeStep]
      simp only [List.isEmpty_cons, Bool.false_eq_true, if_false, hok b]
      rw [show toBatches (p :: ps) =
        ((p :: ps).take BATCH_SIZE) :: toBatches ((p :: ps).drop BATCH_SIZE)
        from by rw [toBatches]]
      rcases le_or_lt 100 (ps.length + 1) with hge | hlt
      · have hbl : ((p :: ps).take BATCH_SIZE).length = 100 := by
          simp only [List.length_take, List.length_cons, BATCH_SIZE]
          omega
        rw [hbl]
        rw [ih ((p :: ps).drop BATCH_SIZE) (chunks.drop 100) (b + 1)
          (by simp only [List.length_drop, List.length_cons, BATCH_SIZE]; omega)
          (by simp only [List.length_drop, List.length_cons, BATCH_SIZE]; omega)]
        simp only [List.map_cons, List.length_cons, List.range_succ_eq_map,
          List.map_map, Prod.mk.injEq]
        refine ⟨trivial, ?_, ?_, trivial⟩
        · simp only [List.cons.injEq]
          refine ⟨by norm_num, ?_⟩
          apply List.map_congr_left
          intro k hk
          simp only [Function.comp_apply, Nat.succ_eq_add_one]
          rw [List.drop_drop, ← List.append_assoc, ← List.map_append,
            ← List.take_add]
          rw [show 100 + 100 * (k + 1) = 100 * (k + 1 + 1) by ring]
        · rw [← List.map_append, List.take_append_drop]
      · have hbl : ((p :: ps).take BATCH_SIZE).length = ps.length + 1 := by
          simp only [List.length_take, List.length_cons, BATCH_SIZE]
          omega
        have hdrop : (p :: ps).drop BATCH_SIZE = [] := by
          apply List.drop_eq_nil_of_le
          simp only [List.length_cons, BATCH_SIZE]
          omega
        rw [hbl, hdrop]
        rw [ih [] (chunks.drop (ps.length + 1)) (b + 1) (by simp)
          (by simp only [List.length_drop, List.length_nil]; omega)]
        simp only [toBatches, List.map_nil, List.length_nil, List.range_zero,
          List.map_cons, List.length_cons, List.range_succ_eq_map, List.map_map,
          Prod.mk.injEq]
        have hcdrop : chunks.drop (ps.length + 1) = [] := by
          apply List.drop_eq_nil_of_le
          omega
        have hctake : chunks.take (ps.length + 1) = chunks := by
          apply List.take_of_length_le
          omega
        have hctake100 : chunks.take (100 * (0 + 1)) = chunks := by
          apply List.take_of_length_le
          omega
        have hcd100 : chunks.drop (100 * (0 + 1)) = [] := by
          apply List.drop_eq_nil_of_le
          omega
        rw [hcdrop, hctake]
        refine ⟨trivial, ?_, by simp, trivial⟩
        simp [hctake100, hcd100]

@[simp] lemma pointOf_markStored (c : DocumentChunk) :
    pointOf (markStored c) = pointOf c := rfl

@[simp] lemma storageStatus_markStored (c : DocumentChunk) :
    (markStored c).storageStatus = ProcessingStatus.completed := rfl

set_option maxHeartbeats 2000000 in
set_option maxRecDepth 8000 in
/-- C6: during the storage stage, `processFile` builds one upsert point
per chunk (id = chunk id, vector = the chunk's embedding, payload = chunk
text plus the flattened metadata), throws on a missing embedding,
partitions the points in order into batches of 100, upserts each batch
with `wait` acknowledgement, and after each batch marks exactly that
batch's chunks `storageStatus = completed`, publishing once per batch; a
successful run issues `getCollections` followed by exactly the batched
upserts, and ends with every chunk marked stored. -/
theorem C6_storage_batching (f0 : ProcessedFile) (o : Oracles)
    (url key cn : String) (names : List String) (t : List Char)
    (hx : o.extractResult = .ok t)
    (hembed : ∀ j, ∃ v, o.embedResult j = .ok v)
    (hurl : ¬ url = "") (hkey : ¬ key = "") (hcn : ¬ cn = "")
    (hg : o.getCollectionsResult = .ok names) (hmem : cn ∈ names)
    (hups : ∀ b, o.upsertResult b = .ok ()) :
    (∀ chunks : List DocumentChunk, (∀ c ∈ chunks, c.embedding.isSome) →
      pointsOfChunks chunks = Except.ok (chunks.map pointOf)) ∧
    (∀ (c : DocumentChunk) (v : List Int), c.embedding = some v →
      (pointOf c).id = c.id ∧ (pointOf c).vector = v ∧
      (pointOf c).payload.text = c.text ∧
      (pointOf c).payload.file_name = c.metadata.file_name ∧
      (pointOf c).payload.file_path = c.metadata.file_path ∧
      (pointOf c).payload.file_type = c.metadata.file_type ∧
      (pointOf c).payload.chunk_size = c.metadata.chunk_size ∧
      (pointOf c).payload.chunk_overlap = c.metadata.chunk_overlap) ∧
    (∀ (points : List UpsertPoint) (chunks : List DocumentChunk) (b : Nat),
      chunks.length = points.length →
      storeStep o.upsertResult cn b points chunks =
        ((toBatches points).map (fun bt => StoreCall.upsert cn true bt),
         (List.range (toBatches points).length).map
           (fun k => (chunks.take (100 * (k + 1))).map markStored ++
             chunks.drop (100 * (k + 1))),
         chunks.map markStored, none)) ∧
    (∃ ps : List UpsertPoint,
      (processFile f0 o url key cn).storeCalls =
        StoreCall.getCollections ::
          (toBatches ps).map (fun bt => StoreCall.upsert cn true bt) ∧
      ((processFile f0 o url key cn).publishes.map
          (fun p => p.chunks.map pointOf)).getLast? = some ps ∧
      ((processFile f0 o url key cn).publishes.map
          (fun p => p.chunks.map (fun c => c.storageStatus))).getLast? =
        some (List.replicate ps.length ProcessingStatus.completed) ∧
      ((processFile f0 o url key cn).publishes.map
          (fun p => p.status)).getLast? = some ProcessingStatus.completed) := by
  refine ⟨pointsOfChunks_ok,
    fun c v hv => by simp [pointOf, payloadOf, hv],
    fun points chunks b hl =>
      storeStep_ok o.upsertResult cn hups points.length points chunks b le_rfl hl,
    ?_⟩
  rcases hE : embedStep o.embedResult 0
      (chunkText f0.id (metaOfF f0.file) (cleanText t)) with ⟨snaps, fin, err⟩
  have herr : err = none := by
    have hn := embedStep_err_none o.embedResult hembed
      (chunkText f0.id (metaOfF f0.file) (cleanText t)) 0
    rw [hE] at hn
    exact hn
  subst herr
  have hfinSome : ∀ c ∈ fin, c.embedding.isSome := by
    have hall := embedStep_embedded o.embedResult hembed
      (chunkText f0.id (metaOfF f0.file) (cleanText t)) 0
    rw [hE] at hall
    exact hall
  have hpts : pointsOfChunks fin = Except.ok (fin.map pointOf) :=
    pointsOfChunks_ok fin hfinSome
  have hS := storeStep_ok o.upsertResult cn hups (fin.map pointOf).length
    (fin.map pointOf) fin 0 le_rfl (by simp)
  have hcond : (url = "" ∨ key = "" ∨ cn = "") = False := by
    simp [hurl, hkey, hcn]
  have hm : (cn ∈ names) = True := eq_true hmem
  refine ⟨fin.map pointOf, ?_, ?_, ?_, ?_⟩ <;>
    simp [processFile, hx, hE, hpts, hS, hcond, hg, hm,
      getLast?_cons_append, getLast?_cons_append_singleton, List.getLast?_append,
      Function.comp_def, map_eq_replicate, List.map_map,
      List.length_map]

/-- C6 witness: the storage-batching theorem instantiated on a concrete
successful run (one chunk, one batch). -/
theorem C6_storage_batching_witness :
    (∀ chunks : List DocumentChunk, (∀ c ∈ chunks, c.embedding.isSome) →
      pointsOfChunks chunks = Except.ok (chunks.map pointOf)) ∧
    (∀ (c : DocumentChunk) (v : List Int), c.embedding = some v →
      (pointOf c).id = c.id ∧ (pointOf c).vector = v ∧
      (pointOf c).payload.text = c.text ∧
      (pointOf c).payload.file_name = c.metadata.file_name ∧
      (pointOf c).payload.file_path = c.metadata.file_path ∧
      (pointOf c).payload.file_type = c.metadata.file_type ∧
      (pointOf c).payload.chunk_size = c.metadata.chunk_size ∧
      (pointOf c).payload.chunk_overlap = c.metadata.chunk_overlap) ∧
    (∀ (points : List UpsertPoint) (chunks : List DocumentChunk) (b : Nat),
      chunks.length = points.length →
      storeStep exOracles.upsertResult "col" b points chunks =
        ((toBatches points).map (fun bt => StoreCall.upsert "col" true bt),
         (List.range (toBatches points).length).map
           (fun k => (chunks.take (100 * (k + 1))).map markStored ++
             chunks.drop (100 * (k + 1))),
         chunks.map markStored, none)) ∧
    (∃ ps : List UpsertPoint,
      (processFile exJob exOracles "http://q" "k" "col").storeCalls =
        StoreCall.getCollections ::
          (toBatches ps).map (fun bt => StoreCall.upsert "col" true bt) ∧
      ((processFile exJob exOracles "http://q" "k" "col").publishes.map
          (fun p => p.chunks.map pointOf)).getLast? = some ps ∧
      ((processFile exJob exOracles "http://q" "k" "col").publishes.map
          (fun p => p.chunks.map (fun c => c.storageStatus))).getLast? =
        some (List.replicate ps.length ProcessingStatus.completed) ∧
      ((processFile exJob exOracles "http://q" "k" "col").publishes.map
          (fun p => p.status)).getLast? = some ProcessingStatus.completed) :=
  C6_storage_batching exJob exOracles "http://q" "k" "col" ["col"] ['h', 'i']
    rfl (fun _ => ⟨[1], rfl⟩) (by decide) (by decide) (by decide) rfl
    (by simp) (fun _ => rfl)


lemma getLast?_cons_map {α β : Type} (a : α) (g : β → α) (s0 : β)
    (stail : List β) :
    (a :: (s0 :: stail).map g).getLast? = ((s0 :: stail).getLast?).map g := by
  have h1 : (a :: (s0 :: stail).map g).getLast? = ((s0 :: stail).map g).getLast? := by
    rw [List.map_cons]
    exact List.getLast?_cons_cons
  rw [h1, List.getLast?_map]

lemma embedStep_last_snap (embed : Nat → Except String (List Int)) :
    ∀ (chunks : List DocumentChunk) (j : Nat) (m : String),
      (embedStep embed j chunks).2.2 = some m →
      ((embedStep embed j chunks).1.getLast?).getD chunks =
        (embedStep embed j chunks).2.1 := by
  intro chunks
  induction chunks with
  | nil => intro j m hm; simp [embedStep] at hm
  | cons c rest ih =>
    intro j m hm
    rcases he : embed j with msg | v
    · simp [embedStep, he]
    · rw [embedStep] at hm ⊢
      simp only [he] at hm ⊢
      have hfin := ih (j + 1) m hm
      rcases hts : (embedStep embed (j + 1) rest).1 with _ | ⟨s0, stail⟩
      · rw [hts] at hfin
        simp only [List.getLast?_nil, Option.getD_none] at hfin
        simp only [hts, List.map_nil, List.getLast?_singleton, Option.getD_some]
        rw [← hfin]
      · rw [hts] at hfin
        obtain ⟨lt, hlt⟩ : ∃ lt, (s0 :: stail).getLast? = some lt :=
          Option.isSome_iff_exists.mp (List.getLast?_isSome.mpr (by simp))
        rw [hlt] at hfin
        simp only [Option.getD_some] at hfin
        rw [getLast?_cons_map, hlt]
        simp [← hfin]

lemma storeStep_last_snap (upsert : Nat → Except String Unit) (cn : String) :
    ∀ (n : Nat) (points : List UpsertPoint) (chunks : List DocumentChunk)
      (b : Nat) (m : String),
      points.length ≤ n →
      (storeStep upsert cn b points chunks).2.2.2 = some m →
      ((storeStep upsert cn b points chunks).2.1.getLast?).getD chunks =
        (storeStep upsert cn b points chunks).2.2.1 := by
  intro n
  induction n with
  | zero =>
    intro points chunks b m hn hm
    have hp : points = [] := List.length_eq_zero.mp (by omega)
    subst hp
    simp [storeStep] at hm
  | succ n ih =>
    intro points chunks b m hn hm
    cases points with
    | nil => simp [storeStep] at hm
    | cons p ps =>
      simp only [List.length_cons] at hn
      rw [storeStep] at hm ⊢
      simp only [List.isEmpty_cons, Bool.false_eq_true, if_false] at hm ⊢
      rcases hu : upsert b with umsg | _
      · simp [hu]
      · simp only [hu] at hm ⊢
        have hfin := ih ((p :: ps).drop BATCH_SIZE)
          (chunks.drop ((p :: ps).take BATCH_SIZE).length) (b + 1) m
          (by simp only [List.length_drop, List.length_cons, BATCH_SIZE]; omega)
          hm
        clear hm
        rcases hts : (storeStep upsert cn (b + 1) ((p :: ps).drop BATCH_SIZE)
            (chunks.drop ((p :: ps).take BATCH_SIZE).length)).2.1
          with _ | ⟨s0, stail⟩
        · rw [hts] at hfin
          simp only [List.getLast?_nil, Option.getD_none] at hfin
          simp only [List.map_nil, List.getLast?_singleton, Option.getD_some]
          rw [← hfin]
        · rw [hts] at hfin
          obtain ⟨lt, hlt⟩ : ∃ lt, (s0 :: stail).getLast? = some lt :=
            Option.isSome_iff_exists.mp (List.getLast?_isSome.mpr (by simp))
          rw [hlt] at hfin
          simp only [Option.getD_some] at hfin
          rw [getLast?_cons_map, hlt, ← hfin]
          rfl

set_option maxHeartbeats 4000000 in
set_option maxRecDepth 8000 in
lemma failure_spec (f0 : ProcessedFile) (o : Oracles) (url key cn : String)
    (h : f0.steps = initialSteps) :
    ∀ fin ∈ (processFile f0 o url key cn).publishes.getLast?,
      fin.status = ProcessingStatus.failed →
      fin.error.isSome = true ∧
      stepStatuses fin =
        List.replicate (failK fin) ProcessingStatus.completed ++
          ProcessingStatus.failed ::
            List.replicate (4 - failK fin) ProcessingStatus.pending ∧
      (fin.steps.map (fun s => s.details))[failK fin]? = some fin.error ∧
      ((processFile f0 o url key cn).publishes.dropLast.getLast?).map
          stepStatuses =
        some (List.replicate (failK fin) ProcessingStatus.completed ++
          ProcessingStatus.inProgress ::
            List.replicate (4 - failK fin) ProcessingStatus.pending) ∧
      ((processFile f0 o url key cn).publishes.dropLast.getLast?).map
          (fun p => p.chunks) = some fin.chunks ∧
      ((processFile f0 o url key cn).publishes.dropLast.getLast?).map
          (fun p => p.extractedText) = some fin.extractedText ∧
      ((processFile f0 o url key cn).publishes.dropLast.getLast?).map
          (fun p => p.cleanedText) = some fin.cleanedText := by
  rcases hx : o.extractResult with msg | t
  · simp [processFile, hx, handleCatch, h, initialSteps, List.find?, stepStatuses,
      failK, List.dropLast_cons_of_ne_nil, List.dropLast_append_of_ne_nil]
  · rcases hE : embedStep o.embedResult 0
        (chunkText f0.id (metaOfF f0.file) (cleanText t)) with ⟨snaps, fin0, err⟩
    rcases err with _ | msg
    · by_cases hcfg : url = "" ∨ key = "" ∨ cn = ""
      · simp [processFile, hx, hE, handleCatch, h, initialSteps, List.find?,
        stepNames, stepStatuses, stageNames, failK, List.takeWhile_cons, List.concat_eq_append,
        getLast?_cons_append, getLast?_cons_append_singleton, List.getLast?_append,
        List.dropLast_append_of_ne_nil, List.dropLast_cons_of_ne_nil,
        Function.comp_def, or_imp, forall_and, forall_eq, forall_eq',
        forall_apply_eq_imp_iff, forall_apply_eq_imp_iff₂, forall_exists_index,
        List.mem_map, hcfg]
      · rcases hg : o.getCollectionsResult with gmsg | names
        · simp [processFile, hx, hE, handleCatch, h, initialSteps, List.find?,
        stepNames, stepStatuses, stageNames, failK, List.takeWhile_cons, List.concat_eq_append,
        getLast?_cons_append, getLast?_cons_append_singleton, List.getLast?_append,
        List.dropLast_append_of_ne_nil, List.dropLast_cons_of_ne_nil,
        Function.comp_def, or_imp, forall_and, forall_eq, forall_eq',
        forall_apply_eq_imp_iff, forall_apply_eq_imp_iff₂, forall_exists_index,
        List.mem_map, hcfg, hg]
        · by_cases hmem : cn ∈ names
          · rcases hpts : pointsOfChunks fin0 with pmsg | points
            · simp [processFile, hx, hE, handleCatch, h, initialSteps, List.find?,
        stepNames, stepStatuses, stageNames, failK, List.takeWhile_cons, List.concat_eq_append,
        getLast?_cons_append, getLast?_cons_append_singleton, List.getLast?_append,
        List.dropLast_append_of_ne_nil, List.dropLast_cons_of_ne_nil,
        Function.comp_def, or_imp, forall_and, forall_eq, forall_eq',
        forall_apply_eq_imp_iff, forall_apply_eq_imp_iff₂, forall_exists_index,
        List.mem_map, hcfg, hg, hmem, hpts]
            · rcases hS : storeStep o.upsertResult cn 0 points fin0 with
                ⟨calls, ssnaps, sfin, serr⟩
              rcases serr with _ | smsg
              · simp [processFile, hx, hE, handleCatch, h, initialSteps, List.find?,
        stepNames, stepStatuses, stageNames, failK, List.takeWhile_cons, List.concat_eq_append,
        getLast?_cons_append, getLast?_cons_append_singleton, List.getLast?_append,
        List.dropLast_append_of_ne_nil, List.dropLast_cons_of_ne_nil,
        Function.comp_def, or_imp, forall_and, forall_eq, forall_eq',
        forall_apply_eq_imp_iff, forall_apply_eq_imp_iff₂, forall_exists_index,
        List.mem_map, hcfg, hg, hmem, hpts, hS]
              · have hlast := storeStep_last_snap o.upsertResult cn points.length
                  points fin0 0 smsg (le_refl _) (by rw [hS])
                rw [hS] at hlast
                rcases List.eq_nil_or_concat ssnaps with hsn | ⟨init, lastsnap, hsn⟩
                · subst hsn
                  simp only [List.getLast?_nil, Option.getD_none] at hlast
                  simp [processFile, hx, hE, handleCatch, h, initialSteps, List.find?,
        stepNames, stepStatuses, stageNames, failK, List.takeWhile_cons, List.concat_eq_append,
        getLast?_cons_append, getLast?_cons_append_singleton, List.getLast?_append,
        List.dropLast_append_of_ne_nil, List.dropLast_cons_of_ne_nil,
        Function.comp_def, or_imp, forall_and, forall_eq, forall_eq',
        forall_apply_eq_imp_iff, forall_apply_eq_imp_iff₂, forall_exists_index,
        List.mem_map, hcfg, hg, hmem, hpts, hS, ← hlast]
                · subst hsn
                  simp only [List.concat_eq_append, List.getLast?_concat,
                    Option.getD_some] at hlast
                  simp [processFile, hx, hE, handleCatch, h, initialSteps, List.find?,
        stepNames, stepStatuses, stageNames, failK, List.takeWhile_cons, List.concat_eq_append,
        getLast?_cons_append, getLast?_cons_append_singleton, List.getLast?_append,
        List.dropLast_append_of_ne_nil, List.dropLast_cons_of_ne_nil,
        Function.comp_def, or_imp, forall_and, forall_eq, forall_eq',
        forall_apply_eq_imp_iff, forall_apply_eq_imp_iff₂, forall_exists_index,
        List.mem_map, hcfg, hg, hmem, hpts, hS, hlast]
          · rcases hc : o.createCollectionResult with cmsg | u
            · simp [processFile, hx, hE, handleCatch, h, initialSteps, List.find?,
        stepNames, stepStatuses, stageNames, failK, List.takeWhile_cons, List.concat_eq_append,
        getLast?_cons_append, getLast?_cons_append_singleton, List.getLast?_append,
        List.dropLast_append_of_ne_nil, List.dropLast_cons_of_ne_nil,
        Function.comp_def, or_imp, forall_and, forall_eq, forall_eq',
        forall_apply_eq_imp_iff, forall_apply_eq_imp_iff₂, forall_exists_index,
        List.mem_map, hcfg, hg, hmem, hc]
            · rcases hpts : pointsOfChunks fin0 with pmsg | points
              · simp [processFile, hx, hE, handleCatch, h, initialSteps, List.find?,
        stepNames, stepStatuses, stageNames, failK, List.takeWhile_cons, List.concat_eq_append,
        getLast?_cons_append, getLast?_cons_append_singleton, List.getLast?_append,
        List.dropLast_append_of_ne_nil, List.dropLast_cons_of_ne_nil,
        Function.comp_def, or_imp, forall_and, forall_eq, forall_eq',
        forall_apply_eq_imp_iff, forall_apply_eq_imp_iff₂, forall_exists_index,
        List.mem_map, hcfg, hg, hmem, hc, hpts]
              · rcases hS : storeStep o.upsertResult cn 0 points fin0 with
                  ⟨calls, ssnaps, sfin, serr⟩
                rcases serr with _ | smsg
                · simp [processFile, hx, hE, handleCatch, h, initialSteps, List.find?,
        stepNames, stepStatuses, stageNames, failK, List.takeWhile_cons, List.concat_eq_append,
        getLast?_cons_append, getLast?_cons_append_singleton, List.getLast?_append,
        List.dropLast_append_of_ne_nil, List.dropLast_cons_of_ne_nil,
        Function.comp_def, or_imp, forall_and, forall_eq, forall_eq',
        forall_apply_eq_imp_iff, forall_apply_eq_imp_iff₂, forall_exists_index,
        List.mem_map, hcfg, hg, hmem, hc, hpts, hS]
                · have hlast := storeStep_last_snap o.upsertResult cn points.length
                    points fin0 0 smsg (le_refl _) (by rw [hS])
                  rw [hS] at hlast
                  rcases List.eq_nil_or_concat ssnaps with hsn | ⟨init, lastsnap, hsn⟩
                  · subst hsn
                    simp only [List.getLast?_nil, Option.getD_none] at hlast
                    simp [processFile, hx, hE, handleCatch, h, initialSteps, List.find?,
        stepNames, stepStatuses, stageNames, failK, List.takeWhile_cons, List.concat_eq_append,
        getLast?_cons_append, getLast?_cons_append_singleton, List.getLast?_append,
        List.dropLast_append_of_ne_nil, List.dropLast_cons_of_ne_nil,
        Function.comp_def, or_imp, forall_and, forall_eq, forall_eq',
        forall_apply_eq_imp_iff, forall_apply_eq_imp_iff₂, forall_exists_index,
        List.mem_map, hcfg, hg, hmem, hc, hpts, hS, ← hlast]
                  · subst hsn
                    simp only [List.concat_eq_append, List.getLast?_concat,
                      Option.getD_some] at hlast
                    simp [processFile, hx, hE, handleCatch, h, initialSteps, List.find?,
        stepNames, stepStatuses, stageNames, failK, List.takeWhile_cons, List.concat_eq_append,
        getLast?_cons_append, getLast?_cons_append_singleton, List.getLast?_append,
        List.dropLast_append_of_ne_nil, List.dropLast_cons_of_ne_nil,
        Function.comp_def, or_imp, forall_and, forall_eq, forall_eq',
        forall_apply_eq_imp_iff, forall_apply_eq_imp_iff₂, forall_exists_index,
        List.mem_map, hcfg, hg, hmem, hc, hpts, hS, hlast]
    · have hlast := embedStep_last_snap o.embedResult
        (chunkText f0.id (metaOfF f0.file) (cleanText t)) 0 msg (by rw [hE])
      rw [hE] at hlast
      rcases List.eq_nil_or_concat snaps with hsn | ⟨init, lastsnap, hsn⟩
      · subst hsn
        simp only [List.getLast?_nil, Option.getD_none] at hlast
        simp [processFile, hx, hE, handleCatch, h, initialSteps, List.find?,
        stepNames, stepStatuses, stageNames, failK, List.takeWhile_cons, List.concat_eq_append,
        getLast?_cons_append, getLast?_cons_append_singleton, List.getLast?_append,
        List.dropLast_append_of_ne_nil, List.dropLast_cons_of_ne_nil,
        Function.comp_def, or_imp, forall_and, forall_eq, forall_eq',
        forall_apply_eq_imp_iff, forall_apply_eq_imp_iff₂, forall_exists_index,
        List.mem_map, ← hlast]
      · subst hsn
        simp only [List.concat_eq_append, List.getLast?_concat,
          Option.getD_some] at hlast
        simp [processFile, hx, hE, handleCatch, h, initialSteps, List.find?,
        stepNames, stepStatuses, stageNames, failK, List.takeWhile_cons, List.concat_eq_append,
        getLast?_cons_append, getLast?_cons_append_singleton, List.getLast?_append,
        List.dropLast_append_of_ne_nil, List.dropLast_cons_of_ne_nil,
        Function.comp_def, or_imp, forall_and, forall_eq, forall_eq',
        forall_apply_eq_imp_iff, forall_apply_eq_imp_iff₂, forall_exists_index,
        List.mem_map, hlast]

set_option maxHeartbeats 4000000 in
set_option maxRecDepth 8000 in
/-- C2: every error thrown inside any stage of `processFile` is caught
once at the top of the invocation: every publish before the final one
shows an in-progress job with no failed stage, and whenever the final
publish is failed it has the job error field set, the stage that was in
progress marked failed with that same message as its detail (all earlier
stages completed, all later ones pending), and it preserves the chunks,
extracted text and cleaned text of the immediately preceding publish, so
partial work is not rolled back; in particular, if the embedding
collaborator fails on the 3rd of 5 chunks, the Generate Embeddings stage
is failed with the message, the first two chunks retain completed
embedding statuses and their vectors, chunks 3-5 retain pending, every
earlier publish shows an in-progress job, and no store call is made. -/
theorem C2_failure_attribution (f0 : ProcessedFile) (o : Oracles)
    (url key cn : String) (h : f0.steps = initialSteps) :
    (∀ p ∈ (processFile f0 o url key cn).publishes.dropLast,
        p.status = ProcessingStatus.inProgress ∧
        (stepStatuses p).all (fun s => decide (s ≠ ProcessingStatus.failed)) = true) ∧
    (∀ fin ∈ (processFile f0 o url key cn).publishes.getLast?,
      fin.status = ProcessingStatus.failed →
      fin.error.isSome = true ∧
      stepStatuses fin =
        List.replicate (failK fin) ProcessingStatus.completed ++
          ProcessingStatus.failed ::
            List.replicate (4 - failK fin) ProcessingStatus.pending ∧
      (fin.steps.map (fun s => s.details))[failK fin]? = some fin.error ∧
      ((processFile f0 o url key cn).publishes.dropLast.getLast?).map stepStatuses =
        some (List.replicate (failK fin) ProcessingStatus.completed ++
          ProcessingStatus.inProgress ::
            List.replicate (4 - failK fin) ProcessingStatus.pending) ∧
      ((processFile f0 o url key cn).publishes.dropLast.getLast?).map (fun p => p.chunks) =
        some fin.chunks ∧
      ((processFile f0 o url key cn).publishes.dropLast.getLast?).map (fun p => p.extractedText) =
        some fin.extractedText ∧
      ((processFile f0 o url key cn).publishes.dropLast.getLast?).map (fun p => p.cleanedText) =
        some fin.cleanedText) ∧
    (∀ (t : List Char) (v0 v1 : List Int) (m : String),
      o.extractResult = .ok t →
      3200 < (cleanText t).length → (cleanText t).length ≤ 4000 →
      o.embedResult 0 = .ok v0 → o.embedResult 1 = .ok v1 →
      o.embedResult 2 = .error m →
      ((processFile f0 o url key cn).publishes.map (fun p => p.status)).getLast? =
        some ProcessingStatus.failed ∧
      ((processFile f0 o url key cn).publishes.map (fun p => p.error)).getLast? = some (some m) ∧
      ((processFile f0 o url key cn).publishes.map stepStatuses).getLast? =
        some [ProcessingStatus.completed, ProcessingStatus.completed,
          ProcessingStatus.completed, ProcessingStatus.failed,
          ProcessingStatus.pending] ∧
      ((processFile f0 o url key cn).publishes.map (fun p => p.steps[3]?)).getLast? =
        some (some (ProcessingStep.mk "Generate Embeddings"
          ProcessingStatus.failed (some m))) ∧
      ((processFile f0 o url key cn).publishes.map
          (fun p => p.chunks.map (fun c => c.embeddingStatus))).getLast? =
        some [ProcessingStatus.completed, ProcessingStatus.completed,
          ProcessingStatus.pending, ProcessingStatus.pending,
          ProcessingStatus.pending] ∧
      ((processFile f0 o url key cn).publishes.map
          (fun p => p.chunks.map (fun c => c.embedding))).getLast? =
        some [some v0, some v1, none, none, none] ∧
      (∀ p ∈ (processFile f0 o url key cn).publishes.dropLast, p.status = ProcessingStatus.inProgress) ∧
      (processFile f0 o url key cn).storeCalls = []) := by
  refine ⟨(trace_master f0 o url key cn h).2.2, failure_spec f0 o url key cn h, ?_⟩
  intro t v0 v1 m hx hL1 hL2 he0 he1 he2
  have hK : ((cleanText t).length + 799) / 800 = 5 := by omega
  have hch : chunkText f0.id (metaOfF f0.file) (cleanText t) =
      [mkChunk f0.id (metaOfF f0.file) (cleanText t) 0 0,
       mkChunk f0.id (metaOfF f0.file) (cleanText t) 800 1,
       mkChunk f0.id (metaOfF f0.file) (cleanText t) 1600 2,
       mkChunk f0.id (metaOfF f0.file) (cleanText t) 2400 3,
       mkChunk f0.id (metaOfF f0.file) (cleanText t) 3200 4] := by
    rw [chunkText_closed, hK]
    norm_num [List.range_succ]
  rcases hE : embedStep o.embedResult 0
      (chunkText f0.id (metaOfF f0.file) (cleanText t)) with ⟨snaps, fin, err⟩
  have hE2 := hE
  rw [hch] at hE2
  simp [embedStep, he0, he1, he2, mkChunk] at hE2
  obtain ⟨hsnaps, hfin, herr⟩ := hE2
  subst herr
  simp [processFile, hx, hE, handleCatch, h, initialSteps, List.find?,
    stepStatuses, List.getLast?_append, List.dropLast_append_of_ne_nil,
    List.dropLast_cons_of_ne_nil, Function.comp_def, or_imp, forall_and,
    forall_eq, forall_eq', forall_apply_eq_imp_iff, forall_apply_eq_imp_iff₂,
    forall_exists_index, List.mem_map, ← hfin, mkChunk,
    getLast?_cons_append_singleton]

/-- C2 witness: the failure-attribution theorem instantiated on a
concrete job whose embedder fails on the 3rd of 5 chunks of a
3300-character document. -/
theorem C2_failure_attribution_witness :
    (∀ p ∈ (processFile exJob exOraclesEmbedFail "http://q" "k" "col").publishes.dropLast,
        p.status = ProcessingStatus.inProgress ∧
        (stepStatuses p).all (fun s => decide (s ≠ ProcessingStatus.failed)) = true) ∧
    (∀ fin ∈ (processFile exJob exOraclesEmbedFail "http://q" "k" "col").publishes.getLast?,
      fin.status = ProcessingStatus.failed →
      fin.error.isSome = true ∧
      stepStatuses fin =
        List.replicate (failK fin) ProcessingStatus.completed ++
          ProcessingStatus.failed ::
            List.replicate (4 - failK fin) ProcessingStatus.pending ∧
      (fin.steps.map (fun s => s.details))[failK fin]? = some fin.error ∧
      ((processFile exJob exOraclesEmbedFail "http://q" "k" "col").publishes.dropLast.getLast?).map stepStatuses =
        some (List.replicate (failK fin) ProcessingStatus.completed ++
          ProcessingStatus.inProgress ::
            List.replicate (4 - failK fin) ProcessingStatus.pending) ∧
      ((processFile exJob exOraclesEmbedFail "http://q" "k" "col").publishes.dropLast.getLast?).map (fun p => p.chunks) =
        some fin.chunks ∧
      ((processFile exJob exOraclesEmbedFail "http://q" "k" "col").publishes.dropLast.getLast?).map (fun p => p.extractedText) =
        some fin.extractedText ∧
      ((processFile exJob exOraclesEmbedFail "http://q" "k" "col").publishes.dropLast.getLast?).map (fun p => p.cleanedText) =
        some fin.cleanedText) ∧
    (∀ (t : List Char) (v0 v1 : List Int) (m : String),
      exOraclesEmbedFail.extractResult = .ok t →
      3200 < (cleanText t).length → (cleanText t).length ≤ 4000 →
      exOraclesEmbedFail.embedResult 0 = .ok v0 → exOraclesEmbedFail.embedResult 1 = .ok v1 →
      exOraclesEmbedFail.embedResult 2 = .error m →
      ((processFile exJob exOraclesEmbedFail "http://q" "k" "col").publishes.map (fun p => p.status)).getLast? =
        some ProcessingStatus.failed ∧
      ((processFile exJob exOraclesEmbedFail "http://q" "k" "col").publishes.map (fun p => p.error)).getLast? = some (some m) ∧
      ((processFile exJob exOraclesEmbedFail "http://q" "k" "col").publishes.map stepStatuses).getLast? =
        some [ProcessingStatus.completed, ProcessingStatus.completed,
          ProcessingStatus.completed, ProcessingStatus.failed,
          ProcessingStatus.pending] ∧
      ((processFile exJob exOraclesEmbedFail "http://q" "k" "col").publishes.map (fun p => p.steps[3]?)).getLast? =
        some (some (ProcessingStep.mk "Generate Embeddings"
          ProcessingStatus.failed (some m))) ∧
      ((processFile exJob exOraclesEmbedFail "http://q" "k" "col").publishes.map
          (fun p => p.chunks.map (fun c => c.embeddingStatus))).getLast? =
        some [ProcessingStatus.completed, ProcessingStatus.completed,
          ProcessingStatus.pending, ProcessingStatus.pending,
          ProcessingStatus.pending] ∧
      ((processFile exJob exOraclesEmbedFail "http://q" "k" "col").publishes.map
          (fun p => p.chunks.map (fun c => c.embedding))).getLast? =
        some [some v0, some v1, none, none, none] ∧
      (∀ p ∈ (processFile exJob exOraclesEmbedFail "http://q" "k" "col").publishes.dropLast, p.status = ProcessingStatus.inProgress) ∧
      (processFile exJob exOraclesEmbedFail "http://q" "k" "col").storeCalls = []) :=
  C2_failure_attribution exJob exOraclesEmbedFail "http://q" "k" "col" rfl
